import Mathlib

/-!
Verification of the Quad LFO firmware (QUAD_LFO.ino).

The source holds two variants of the sketch: a four-channel variant
(arrays `accumulator[4]`, `tuningWord[4]`, `waveNum[4]`, control loop in
`loop()`, ISR `TIMER2_OVF_vect`) and a two-channel variant with
depth scaling (`accumulatorA/B`, `LFO1_TuningWord`, `LFO1_Depth`,
`SYNC_COMMON`).  The per-channel arithmetic is identical in both; the
definitions below embed it shallowly:

* machine integers become `Nat` with explicit `% 2^32` (the 32-bit
  `unsigned long` accumulator / tuning word) and `% 256` (the 8-bit
  `byte` counters and PWM compare registers);
* the `double` arithmetic of the tuning-word formula is embedded as
  exact rational arithmetic (`ℚ`); every concrete value proved about it
  is far from a rounding boundary, so the idealization agrees with the
  IEEE-754 evaluation at the inputs used;
* the conversion of the `double` tuning word to `unsigned long` is C
  truncation toward zero, i.e. `Int.floor` on the non-negative values
  arising here.
-/

namespace QuadLFO

/-- Number of oscillators: `const byte NUM_LFO = 4;` (four-channel variant). -/
def NUM_LFO : Nat := 4

/-- Number of wavetables, `NUM_WAVES = sizeof(waveTable)/sizeof(byte *)`:
the wave table pointer array lists sine256, ramp256, saw256, tri256, pulse8,
pulse16, pulse64, sq256, noise256 — nine tables. -/
def NUM_WAVES : Nat := 9

/-- Accumulator modulus: `const unsigned long long POW2TO32 = pow(2, 32);` -/
def POW2TO32 : Nat := 2 ^ 32

/-- One tick's accumulator update for one channel, from the ISR:
`accumulator[i] += tuningWord[i];` on a 32-bit `unsigned long`
(wraps modulo `2^32`). -/
def accTick (t acc : Nat) : Nat := (acc + t) % POW2TO32

/-- The ISR's per-channel body (two-channel variant, lines 617–619):
advance the accumulator, take the high-order byte as the wavetable
offset, read the sample, scale by depth and write the result to the
8-bit PWM compare register (`OCR2A`, an 8-bit register, truncates to
a byte).  `w` is the active wavetable as a function from offsets to
byte samples. -/
def lfoTick (w : Nat → Nat) (depth t acc : Nat) : Nat × Nat :=
  let acc2 := accTick t acc
  let offset := acc2 / 2 ^ 24
  (acc2, w offset * depth / 1024 % 256)

/-- The depth scaling `(pgm_read_byte_near(...) * LFO_Depth) / 1024L`
as written to the 8-bit compare register. -/
def scaleOut (sample depth : Nat) : Nat := sample * depth / 1024 % 256

/-- The tick-counter maintenance at the top of the ISR:
`if (tickCounter++ == 125) { fourMilliCounter++; tickCounter = 0; }`.
Both counters are `byte` (wrap modulo 256).  The post-increment
compares the OLD value with 125, so the branch that bumps
`fourMilliCounter` fires on the tick that sees `tickCounter = 125`. -/
def tickCountStep : Nat × Nat → Nat × Nat
  | (tc, fm) => if tc = 125 then (0, (fm + 1) % 256) else ((tc + 1) % 256, fm)

/-- The control-cadence gate in `loop()`:
`if (fourMilliCounter > 25) { fourMilliCounter = 0; ... }`. -/
def slowGate (fm : Nat) : Bool := decide (fm > 25)

/-- C1 — For every channel, every 32-bit initial accumulator, every tuning
word `t` and every tick count `k`, running the tick routine `k` times leaves
the accumulator at `(initial + k*t) mod 2^32`: each tick adds the tuning
word exactly once with silent unsigned wraparound (the ISR touches the
accumulator only in `accumulator[i] += tuningWord[i]`). -/
theorem accumulator_after_k_ticks (w : Nat → Nat) (d t acc k : Nat)
    (hacc : acc < POW2TO32) :
    (fun a => (lfoTick w d t a).1)^[k] acc = (acc + k * t) % POW2TO32 := by
  induction k generalizing acc with
  | zero => simp [Nat.mod_eq_of_lt hacc]
  | succ n ih =>
      rw [Function.iterate_succ_apply]
      have h1 : (lfoTick w d t acc).1 = (acc + t) % POW2TO32 := rfl
      rw [h1, ih _ (Nat.mod_lt _ (by norm_num [POW2TO32]))]
      rw [Nat.mod_add_mod]
      congr 1
      ring

/-- Witness for C1 at a concrete input. -/
theorem accumulator_after_k_ticks_witness :
    (fun a => (lfoTick (fun _ => 0) 0 3 a).1)^[2] 5 = (5 + 2 * 3) % POW2TO32 :=
  accumulator_after_k_ticks (fun _ => 0) 0 3 5 2 (by norm_num [POW2TO32])

/-- Helper: for `k ≤ 125`, iterating the tick-counter step `k` times from
`(0, fm)` just counts up: no slow tick fires before the counter reaches 125. -/
theorem tickCountStep_iterate_le (fm : Nat) :
    ∀ k, k ≤ 125 → tickCountStep^[k] (0, fm) = (k, fm) := by
  intro k
  induction k with
  | zero => intro _; rfl
  | succ n ih =>
      intro hn
      rw [Function.iterate_succ_apply', ih (by omega)]
      have hne : n ≠ 125 := by omega
      simp only [tickCountStep, hne, if_false]
      rw [Nat.mod_eq_of_lt (by omega)]

/-- C4 counterexample — the claim implies that after 125 ticks from the reset
state `(tickCounter, fourMilliCounter) = (0, 0)` the slow-tick counter has
advanced to 1; in the code it is still 0 (the post-increment compare makes the
period 126 ticks, values 0..125). -/
theorem slow_tick_not_every_125 :
    (tickCountStep^[125] (0, 0)).2 = 0 ∧ (tickCountStep^[125] (0, 0)).2 ≠ 1 := by
  rw [tickCountStep_iterate_le 0 125 (by norm_num)]
  exact ⟨rfl, by norm_num⟩

/-- C4 amended — the tick counter counts 0..125 and, on the tick that sees it
equal to 125, it is reset to 0 while the slow-tick counter is incremented
(mod 256), so the slow-tick counter advances exactly once every 126 ticks;
the Parameter Controller gate fires exactly when the slow-tick counter
exceeds 25 (first true at 26), and the controller then resets it to 0. -/
theorem slow_tick_every_126 :
    (∀ fm : Nat, tickCountStep^[126] (0, fm) = (0, (fm + 1) % 256)) ∧
    slowGate 25 = false ∧ slowGate 26 = true := by
  refine ⟨fun fm => ?_, rfl, rfl⟩
  have h : (126 : Nat) = 125 + 1 := rfl
  rw [h, Function.iterate_succ_apply', tickCountStep_iterate_le fm 125 (le_refl _)]
  simp [tickCountStep]

/-- C8 — in the depth-capable two-channel variant, for every wavetable whose
samples are bytes, every depth `d ≤ 1024`, the emitted output of a tick
equals `⌊sample * d / 1024⌋` (the byte truncation of the 8-bit compare
register never clips it) and never exceeds 255; the scaling is monotone
(linear up to flooring) in the sample and in the depth. -/
theorem depth_scaling_bounded (w : Nat → Nat) (d t acc : Nat)
    (hw : ∀ x, w x ≤ 255) (hd : d ≤ 1024) :
    (lfoTick w d t acc).2 = w ((acc + t) % POW2TO32 / 2 ^ 24) * d / 1024 ∧
    (lfoTick w d t acc).2 ≤ 255 ∧
    (∀ s1 s2 d1 d2 : Nat, s1 ≤ s2 → d1 ≤ d2 →
      s1 * d1 / 1024 ≤ s2 * d2 / 1024) := by
  have hb : ∀ s : Nat, s ≤ 255 → s * d / 1024 ≤ 255 := by
    intro s hs
    calc s * d / 1024 ≤ 255 * 1024 / 1024 :=
          Nat.div_le_div_right (Nat.mul_le_mul hs hd)
      _ = 255 := by norm_num
  have hlt : w ((acc + t) % POW2TO32 / 2 ^ 24) * d / 1024 < 256 :=
    Nat.lt_succ_of_le (hb _ (hw _))
  refine ⟨?_, ?_, ?_⟩
  · show w ((acc + t) % POW2TO32 / 2 ^ 24) * d / 1024 % 256 = _
    exact Nat.mod_eq_of_lt hlt
  · show w ((acc + t) % POW2TO32 / 2 ^ 24) * d / 1024 % 256 ≤ 255
    rw [Nat.mod_eq_of_lt hlt]; exact hb _ (hw _)
  · intro s1 s2 d1 d2 hs hd'
    exact Nat.div_le_div_right (Nat.mul_le_mul hs hd')

/-- Witness for C8 at a concrete input. -/
theorem depth_scaling_bounded_witness :
    (lfoTick (fun _ => 200) 1024 7 9).2 = 200 * 1024 / 1024 ∧
    (lfoTick (fun _ => 200) 1024 7 9).2 ≤ 255 := by
  have h := depth_scaling_bounded (fun _ => 200) 1024 7 9
    (fun _ => by norm_num) (le_refl _)
  exact ⟨h.1, h.2.1⟩

/-- Modelled from the spec: the depth potentiometer is read through the
external `CS_Pot` control (src/CS_Pot.h is not part of the sources here);
per §6 an analog control is "reduced to a stable integer in [0,1023]", so a
raw depth reading is at most 1023. -/
def potReadingMax : Nat := 1023

/-- C9 — with the depth field holding a raw pot reading `d ≤ 1023`, every
emitted sample of the two-channel variant is at most 254: full-scale 255 is
never written to the compare register. -/
theorem output_never_full_scale (w : Nat → Nat) (d t acc : Nat)
    (hw : ∀ x, w x ≤ 255) (hd : d ≤ potReadingMax) :
    (lfoTick w d t acc).2 ≤ 254 ∧ (lfoTick w d t acc).2 ≠ 255 := by
  have hb : (lfoTick w d t acc).2 ≤ 254 := by
    show w ((acc + t) % POW2TO32 / 2 ^ 24) * d / 1024 % 256 ≤ 254
    have h1 : w ((acc + t) % POW2TO32 / 2 ^ 24) * d / 1024 ≤ 254 := by
      calc w ((acc + t) % POW2TO32 / 2 ^ 24) * d / 1024
          ≤ 255 * 1023 / 1024 := Nat.div_le_div_right (Nat.mul_le_mul (hw _) hd)
        _ = 254 := by norm_num
    exact le_trans (Nat.mod_le _ _) h1
  exact ⟨hb, by omega⟩

/-- Witness for C9 at a concrete input. -/
theorem output_never_full_scale_witness :
    (lfoTick (fun _ => 255) 1023 1 0).2 ≤ 254 :=
  (output_never_full_scale (fun _ => 255) 1023 1 0
    (fun _ => le_refl _) (le_refl _)).1

/-- One iteration of the Sync/Reset Handler for one channel (four-channel
variant, lines 196–202): read the trigger pin; if its level differs from
`lastSync[i]`, store the new level and, if it equals `SYNC_TRIGGER`, zero the
accumulator.  State is `(lastSync, accumulator)`; levels are 0/1. -/
def syncStep (trigger pin : Nat) : Nat × Nat → Nat × Nat
  | (last, acc) =>
      if pin ≠ last then (pin, if pin = trigger then 0 else acc) else (last, acc)

/-- One iteration of the shared-input sync handler (two-channel variant with
`SYNC_COMMON`, lines 514–523): one pin, one `lastSYNC1` level, and a single
trigger edge zeroes both accumulators.  State is `(lastSYNC1, accA, accB)`. -/
def syncCommonStep (trigger pin : Nat) : Nat × Nat × Nat → Nat × Nat × Nat
  | (last, accA, accB) =>
      if pin ≠ last then
        (pin, if pin = trigger then (0, 0) else (accA, accB))
      else (last, accA, accB)

/-- C5 — one iteration of the Sync/Reset Handler leaves the accumulator at 0
iff the observed level differs from the stored one and equals the configured
trigger polarity (or the accumulator was already 0); the stored level always
ends up equal to the observed level (it is updated on every change); and with
a shared sync input a single trigger edge zeroes both accumulators. -/
theorem sync_reset_characterization (trigger pin last acc : Nat) :
    ((syncStep trigger pin (last, acc)).2 = 0 ↔
      (pin ≠ last ∧ pin = trigger) ∨ acc = 0) ∧
    ((syncStep trigger pin (last, acc)).1 = pin) ∧
    (¬(pin ≠ last ∧ pin = trigger) → (syncStep trigger pin (last, acc)).2 = acc) ∧
    (∀ accA accB, pin ≠ last → pin = trigger →
      syncCommonStep trigger pin (last, accA, accB) = (pin, 0, 0)) := by
  by_cases hne : pin = last
  · simp [syncStep, syncCommonStep, hne]
  · by_cases htr : pin = trigger
    · subst htr
      simp [syncStep, syncCommonStep, hne]
    · simp [syncStep, syncCommonStep, hne, htr]

/-- Witness for C5 at a concrete input: a rising edge (stored level 0,
observed level 1, trigger polarity 1) zeroes an accumulator of 77, and the
same edge on a shared input zeroes both accumulators. -/
theorem sync_reset_characterization_witness :
    (syncStep 1 1 (0, 77)).2 = 0 ∧ syncCommonStep 1 1 (0, 41, 42) = (1, 0, 0) := by
  have h := sync_reset_characterization 1 1 0 77
  exact ⟨h.1.mpr (Or.inl ⟨by norm_num, rfl⟩),
    h.2.2.2 41 42 (by norm_num) rfl⟩

/-- One channel's wave-select update in the Parameter Controller (four-channel
variant, lines 217–223; identically lines 547–553 / 556–562 in the two-channel
variant): if the debounced switch reports a change and the debounced state is
a press (`pinState == 1`), advance the wave index mod `NUM_WAVES` and point
the waveform reference at the corresponding table.  State is
`(waveNum, waveRef)` with `waveRef` the index of the table `waveform[i]`
points into `waveTable`. -/
def waveStep (changed : Bool) (pinState : Nat) : Nat × Nat → Nat × Nat
  | (w, ref) =>
      if changed = true ∧ pinState = 1 then
        ((w + 1) % NUM_WAVES, (w + 1) % NUM_WAVES)
      else (w, ref)

/-- Initial wave indices, line 143: `byte waveNum[] = \x7b0, 0, 0, 0,\x7d;` -/
def waveNumInit : List Nat := [0, 0, 0, 0]

/-- A sequence of control-loop iterations acting on one channel's wave state:
each event is the pair (changed flag, debounced pin state). -/
def waveRun (evs : List (Bool × Nat)) (s : Nat × Nat) : Nat × Nat :=
  evs.foldl (fun s e => waveStep e.1 e.2 s) s

/-- C6 — on a debounced press-edge the wave index advances to
`(w + 1) mod NUM_WAVES` and the waveform reference is set to that same
library index; `NUM_WAVES` consecutive press-edges starting from index 0
return to index 0; and an iteration without a press-edge leaves both the
index and the waveform reference unchanged. -/
theorem wave_select_cycles (changed : Bool) (pinState w ref : Nat) :
    (changed = true → pinState = 1 →
      waveStep changed pinState (w, ref) =
        ((w + 1) % NUM_WAVES, (w + 1) % NUM_WAVES)) ∧
    (waveStep true 1)^[NUM_WAVES] (0, 0) = (0, 0) ∧
    (¬(changed = true ∧ pinState = 1) →
      waveStep changed pinState (w, ref) = (w, ref)) := by
  refine ⟨fun hc hp => ?_, by decide, fun hn => ?_⟩
  · simp [waveStep, hc, hp]
  · simp only [waveStep, if_neg hn]

/-- Witness for C6 at a concrete input. -/
theorem wave_select_cycles_witness :
    waveStep true 1 (8, 8) = (0, 0) ∧ waveStep false 1 (3, 3) = (3, 3) := by
  have h := wave_select_cycles true 1 8 8
  have h' := wave_select_cycles false 1 3 3
  exact ⟨h.1 rfl rfl, h'.2.2 (by simp)⟩

/-- C10 — each channel's wave index starts at 0 and stays in
`[0, NUM_WAVES)` across any sequence of control-loop iterations, so the
waveform pointer always refers to one of the `NUM_WAVES` library tables. -/
theorem wave_index_invariant :
    (∀ w ∈ waveNumInit, w = 0 ∧ w < NUM_WAVES) ∧
    (∀ (evs : List (Bool × Nat)) (s : Nat × Nat),
      s.1 < NUM_WAVES → (waveRun evs s).1 < NUM_WAVES) := by
  refine ⟨by decide, fun evs => ?_⟩
  induction evs with
  | nil => intro s hs; exact hs
  | cons e rest ih =>
      intro s hs
      have hstep : (waveStep e.1 e.2 s).1 < NUM_WAVES := by
        obtain ⟨w, ref⟩ := s
        by_cases h : e.1 = true ∧ e.2 = 1
        · simp only [waveStep, if_pos h]
          exact Nat.mod_lt _ (by norm_num [NUM_WAVES])
        · simpa only [waveStep, if_neg h] using hs
      exact ih _ hstep

/-- Witness for C10 at a concrete input. -/
theorem wave_index_invariant_witness :
    (waveRun [(true, 1), (false, 0), (true, 1)] (0, 0)).1 < NUM_WAVES :=
  wave_index_invariant.2 [(true, 1), (false, 0), (true, 1)] (0, 0)
    (by norm_num [NUM_WAVES])

/-- The index sequence of the four-channel control-update loop,
`for (byte i=0; i<=NUM_LFO; i+=1)` (line 216): it visits `0, …, NUM_LFO`
inclusive. -/
def controlLoopIndices : List Nat := List.range (NUM_LFO + 1)

/-- C3 — evaluation of the control-update loop bound: the loop visits index
`NUM_LFO = 4`, which is NOT a valid index of the per-channel arrays
(`waveCtrl`, `freqCtrl`, `waveNum`, `waveform`, `tuningWord` all have
`NUM_LFO = 4` elements, valid indices `0..3`).  The last iteration reads and
writes one slot past every per-channel array. -/
theorem control_loop_out_of_bounds :
    controlLoopIndices = [0, 1, 2, 3, 4] ∧
    4 ∈ controlLoopIndices ∧ ¬(4 < NUM_LFO) := by decide

/-- Tick (interrupt) rate, `const double clock = 31372.549;`, as an exact
rational. -/
def clock : ℚ := 31372549 / 1000

/-- The tuning-word computation of the Parameter Controller (line 226;
identically lines 565/569 of the two-channel variant):
`tuningWord[i] = POW2TO32 * (((((double)freqCtrl[i].value() * FREQ_RANGE[i]) / 1023L) + FREQ_MIN[i]) / clock);`
with `FREQ_RANGE[i] = max − min` and `FREQ_MIN[i] = min`.  The `double`
arithmetic is embedded exactly over `ℚ`; the assignment of the `double`
product to the 32-bit `unsigned long` truncates toward zero, which on the
non-negative values arising from `0 ≤ min ≤ max` is `Int.floor`. -/
def tuningWord (mn mx : ℚ) (r : ℕ) : ℤ :=
  ⌊(POW2TO32 : ℚ) * (((r : ℚ) * (mx - mn) / 1023 + mn) / clock)⌋

/-- The tuning word as the spec words it: `freq = min + (r/1023)*(max−min)`
and `tuning_word = round(2^32 * freq / tick_rate)` — kept separate from
`tuningWord` (which embeds the source) to compare the two. -/
def tuningWordSpec (mn mx : ℚ) (r : ℕ) : ℤ :=
  round ((POW2TO32 : ℚ) * ((mn + ((r : ℚ) / 1023) * (mx - mn)) / clock))

/-- C2 counterexample — with `tick_rate = 31372.549`, `min_freq = 0.1`,
`max_freq = 10`, a reading of 1023 makes the code produce 1,369,020
(truncation), while the spec's formula `round(2^32·10/31372.549)` gives
1,369,021, and neither is within ±1 of the spec's quoted figure 1,368,710. -/
theorem tuning_word_at_full_scale :
    tuningWord (1 / 10) 10 1023 = 1369020 ∧
    tuningWordSpec (1 / 10) 10 1023 = 1369021 ∧
    tuningWord (1 / 10) 10 1023 ≠ tuningWordSpec (1 / 10) 10 1023 ∧
    ¬(1368709 ≤ tuningWord (1 / 10) 10 1023 ∧
      tuningWord (1 / 10) 10 1023 ≤ 1368711) := by
  have h1 : tuningWord (1 / 10) 10 1023 = 1369020 := by
    rw [tuningWord, Int.floor_eq_iff]
    constructor <;> norm_num [clock, POW2TO32]
  have h2 : tuningWordSpec (1 / 10) 10 1023 = 1369021 := by
    rw [tuningWordSpec, round_eq, Int.floor_eq_iff]
    constructor <;> norm_num [clock, POW2TO32]
  refine ⟨h1, h2, ?_, ?_⟩
  · rw [h1, h2]; norm_num
  · rw [h1]; norm_num

/-- C2 amended — the code's tuning word is the FLOOR (truncating
double→unsigned conversion), not the round, of `2^32 · freq / tick_rate`
with `freq = min + (r/1023)·(max−min)`; a reading of 0 yields
`⌊2^32·min/tick_rate⌋`, a reading of 1023 yields `⌊2^32·max/tick_rate⌋`,
and with tick_rate 31372.549, min 0.1, max 10 the reading 1023 gives
1,369,020 and the reading 0 gives 13,690. -/
theorem tuning_word_formula (mn mx : ℚ) (r : ℕ) :
    tuningWord mn mx r =
      ⌊(POW2TO32 : ℚ) * ((mn + ((r : ℚ) / 1023) * (mx - mn)) / clock)⌋ ∧
    tuningWord mn mx 0 = ⌊(POW2TO32 : ℚ) * (mn / clock)⌋ ∧
    tuningWord mn mx 1023 = ⌊(POW2TO32 : ℚ) * (mx / clock)⌋ ∧
    tuningWord (1 / 10) 10 1023 = 1369020 ∧
    tuningWord (1 / 10) 10 0 = 13690 := by
  refine ⟨?_, ?_, ?_, ?_, ?_⟩
  · unfold tuningWord
    congr 2
    ring
  · unfold tuningWord
    congr 2
    push_cast
    ring
  · unfold tuningWord
    congr 2
    push_cast
    field_simp
  · rw [tuningWord, Int.floor_eq_iff]
    constructor <;> norm_num [clock, POW2TO32]
  · rw [tuningWord, Int.floor_eq_iff]
    constructor <;> norm_num [clock, POW2TO32]

/-- C7 — with `min_freq ≤ max_freq` and the fixed positive tick rate, the
tuning word is monotone in the control reading: for `r1 ≤ r2` in `[0,1023]`
the computed tuning word does not decrease. -/
theorem tuning_word_monotone (mn mx : ℚ) (r1 r2 : ℕ)
    (hmn : mn ≤ mx) (h12 : r1 ≤ r2) (h2 : r2 ≤ 1023) :
    tuningWord mn mx r1 ≤ tuningWord mn mx r2 := by
  apply Int.floor_le_floor
  have hr : (r1 : ℚ) ≤ (r2 : ℚ) := by exact_mod_cast h12
  have hrange : (0 : ℚ) ≤ mx - mn := by linarith
  have hclock : (0 : ℚ) < clock := by norm_num [clock]
  have hmul : (r1 : ℚ) * (mx - mn) ≤ (r2 : ℚ) * (mx - mn) :=
    mul_le_mul_of_nonneg_right hr hrange
  have hdiv : (r1 : ℚ) * (mx - mn) / 1023 ≤ (r2 : ℚ) * (mx - mn) / 1023 := by
    apply div_le_div_of_nonneg_right hmul (by norm_num)
  have hnum : ((r1 : ℚ) * (mx - mn) / 1023 + mn) / clock ≤
      ((r2 : ℚ) * (mx - mn) / 1023 + mn) / clock := by
    apply div_le_div_of_nonneg_right _ hclock.le
    linarith
  exact mul_le_mul_of_nonneg_left hnum (by norm_num [POW2TO32])

/-- Witness for C7 at a concrete input. -/
theorem tuning_word_monotone_witness :
    tuningWord (1 / 10) 10 0 ≤ tuningWord (1 / 10) 10 1023 :=
  tuning_word_monotone (1 / 10) 10 0 1023 (by norm_num) (by norm_num)
    (by norm_num)

end QuadLFO
